import Mathlib

/-!
Verification of the Akron ORM core against its design specification.

The repository ships usage examples only; the core engine (filter compiler,
query builder, execution engine, transaction manager) is reconstructed here
as a shallow embedding following the specification's component contracts.
-/

namespace Akron

/-- Modelled from the spec: scalar values stored in records (§3 Data Model).
The value universe covers the `int`, `str` and `bool` type tags used by every
verified property; `float` columns may be declared in a schema but no verified
property stores a float value. -/
inductive Value where
  | int : Int → Value
  | str : String → Value
  | bool : Bool → Value
deriving DecidableEq

/-- Lexicographic strict order on character lists, the order the storage
engine applies to text values. -/
def charsLt : List Char → List Char → Bool
  | [], [] => false
  | [], _ :: _ => true
  | _ :: _, [] => false
  | a :: as, b :: bs => decide (a < b) || (a == b && charsLt as bs)

/-- Strict order on values: numeric on ints, lexicographic on strings,
false-before-true on booleans; values of different runtime types are
incomparable. -/
def Value.ltb : Value → Value → Bool
  | .int a, .int b => decide (a < b)
  | .str a, .str b => charsLt a.data b.data
  | .bool a, .bool b => !a && b
  | _, _ => false

/-- Non-strict order on values, derived from the strict order. -/
def Value.leb (a b : Value) : Bool := Value.ltb a b || decide (a = b)

/-- SQL LIKE pattern matching over characters: `%` matches any sequence,
`_` matches any single character.  Fuel-indexed so the function is
structurally recursive; `likeMatch` supplies sufficient fuel. -/
def likeMatchAux : Nat → List Char → List Char → Bool
  | 0, _, _ => false
  | fuel + 1, ps, cs =>
    match ps, cs with
    | [], [] => true
    | '%' :: ps', [] => likeMatchAux fuel ps' []
    | _ :: _, [] => false
    | [], _ :: _ => false
    | '%' :: ps', c :: cs' =>
      likeMatchAux fuel ps' (c :: cs') || likeMatchAux fuel ('%' :: ps') cs'
    | '_' :: ps', _ :: cs' => likeMatchAux fuel ps' cs'
    | p :: ps', c :: cs' => p == c && likeMatchAux fuel ps' cs'

/-- SQL LIKE matching of a string against a pattern. -/
def likeMatch (pat s : List Char) : Bool :=
  likeMatchAux (pat.length + s.length + 1) pat s

/-- Modelled from the spec: the closed operator set of the Filter Compiler
(§3, §4.1): {eq, ne, gt, gte, lt, lte, like, in}. -/
inductive Op where
  | eq | ne | gt | gte | lt | lte | like | inOp
deriving DecidableEq

/-- Map an operator-suffix name to its operator; `none` for a name outside
the closed set. -/
def lookupOp : String → Option Op
  | "eq" => some .eq
  | "ne" => some .ne
  | "gt" => some .gt
  | "gte" => some .gte
  | "lt" => some .lt
  | "lte" => some .lte
  | "like" => some .like
  | "in" => some .inOp
  | _ => none

/-- A filter value: a single scalar, or a list of scalars for the `in`
operator. -/
inductive FilterVal where
  | one : Value → FilterVal
  | many : List Value → FilterVal
deriving DecidableEq

/-- Modelled from the spec: a Predicate is a (field, operator, value)
triple (§3 Data Model). -/
structure Predicate where
  field : String
  op : Op
  val : FilterVal
deriving DecidableEq

/-- Split a character list on every occurrence of the two-character
separator `__`, greedily left to right. -/
def splitAllUU : List Char → List (List Char)
  | [] => [[]]
  | '_' :: '_' :: rest => [] :: splitAllUU rest
  | c :: rest =>
    match splitAllUU rest with
    | [] => [[c]]
    | g :: gs => (c :: g) :: gs

/-- Rejoin groups with the `__` separator (inverse of `splitAllUU` on all
but the last group). -/
def joinUU : List (List Char) → List Char
  | [] => []
  | [g] => g
  | g :: gs => g ++ '_' :: '_' :: joinUU gs

/-- Modelled from the spec: the Filter Compiler splits a key on its final
double-underscore suffix (§4.1); a key with no `__` has no suffix. -/
def splitKey (k : String) : String × Option String :=
  match (splitAllUU k.data).reverse with
  | [] => (k, none)
  | [_] => (k, none)
  | suf :: rest => (String.mk (joinUU rest.reverse), some (String.mk suf))

/-- Schema column type tags (§3 Data Model). -/
inductive Ty where
  | int | str | bool | float
  | fk : String → String → Ty
deriving DecidableEq

/-- An ordered column-name-to-type mapping. -/
abbrev Schema := List (String × Ty)

/-- A record: an ordered mapping from column name to value. -/
abbrev Row := List (String × Value)

/-- An ordered filter mapping, the input of the Filter Compiler. -/
abbrev FilterMap := List (String × FilterVal)

/-- Look up a field in a row: the first binding wins. -/
def rowGet (r : Row) (f : String) : Option Value :=
  match r.find? (fun q => q.1 == f) with
  | some q => some q.2
  | none => none

/-- Whether a schema declares a column of the given name. -/
def schemaHas (s : Schema) (f : String) : Bool :=
  (s.find? (fun c => c.1 == f)).isSome

/-- Modelled from the spec: the error taxonomy (§7). `custom` stands for an
execution-time failure surfaced by the storage engine (e.g. a constraint
violation). -/
inductive AkronError where
  | invalidFilter : String → AkronError
  | invalidField : String → AkronError
  | invalidArgument : String → AkronError
  | unsupportedAggregate : String → AkronError
  | tableNotFound : String → AkronError
  | custom : String → AkronError
deriving DecidableEq

/-- Resolve a filter key to its base field and operator: no suffix means
`eq`; a suffix outside the closed operator set yields `none` (§4.1). -/
def keyOp (k : String) : Option (String × Op) :=
  match splitKey k with
  | (f, none) => some (f, .eq)
  | (f, some n) =>
    match lookupOp n with
    | some op => some (f, op)
    | none => none

/-- Modelled from the spec: the Filter Compiler (§4.1).  Each key is split
on its double-underscore suffix; no suffix means `eq`; a suffix outside the
closed operator set, or a base field absent from the schema, is rejected
with `InvalidFilterError`.  Output order matches input order. -/
def compileFilters (s : Schema) : FilterMap → Except AkronError (List Predicate)
  | [] => .ok []
  | (k, v) :: rest =>
    match keyOp k with
    | none => .error (.invalidFilter k)
    | some (f, op) =>
      if schemaHas s f then
        match compileFilters s rest with
        | .ok ps => .ok (⟨f, op, v⟩ :: ps)
        | .error e => .error e
      else .error (.invalidFilter k)

/-- Evaluate one operator against a stored value and a filter value,
following the operators' relational semantics (§4.1, §8). -/
def evalOp : Op → Value → FilterVal → Bool
  | .eq, v, .one w => decide (v = w)
  | .ne, v, .one w => decide (v ≠ w)
  | .gt, v, .one w => Value.ltb w v
  | .gte, v, .one w => Value.leb w v
  | .lt, v, .one w => Value.ltb v w
  | .lte, v, .one w => Value.leb v w
  | .like, .str sv, .one (.str pat) => likeMatch pat.data sv.data
  | .inOp, v, .many ws => ws.any (fun w => decide (v = w))
  | _, _, _ => false

/-- Evaluate one predicate against a row; a missing field never matches. -/
def evalPred (r : Row) (p : Predicate) : Bool :=
  match rowGet r p.field with
  | some v => evalOp p.op v p.val
  | none => false

/-- Whether a row satisfies every predicate of a conjunctive list. -/
def matchesAll (ps : List Predicate) (r : Row) : Bool :=
  ps.all (fun p => evalPred r p)

/-- A stored table: its schema, its rows in storage order, and the next
autoincrement key the engine will assign. -/
structure Table where
  schema : Schema
  rows : List Row
  nextId : Int
deriving DecidableEq

/-- The database: a mapping from table name to table. -/
abbrev DB := List (String × Table)

/-- Look up a table by name. -/
def getTable (db : DB) (t : String) : Option Table :=
  match db.find? (fun q => q.1 == t) with
  | some q => some q.2
  | none => none

/-- Replace (or add) a table binding. -/
def setTable : DB → String → Table → DB
  | [], t, tbl => [(t, tbl)]
  | (n, x) :: rest, t, tbl =>
    if n == t then (t, tbl) :: rest else (n, x) :: setTable rest t tbl

/-- Modelled from the spec: the Schema DDL collaborator applies a table
declaration (§6); a fresh table starts empty with autoincrement key 1. -/
def createTable (db : DB) (t : String) (s : Schema) : DB :=
  setTable db t ⟨s, [], 1⟩

/-- Number of rows currently stored in a table (0 when absent). -/
def rowCount (db : DB) (t : String) : Nat :=
  match getTable db t with
  | some tbl => tbl.rows.length
  | none => 0

/-- A sort key: field name plus descending flag. -/
structure SortKey where
  field : String
  desc : Bool
deriving DecidableEq

/-- Modelled from the spec: the immutable QueryPlan value object (§3):
target table, AND-combined predicates, sort keys, optional limit/offset. -/
structure QueryPlan where
  table : String
  preds : List Predicate
  sortKeys : List SortKey
  limit? : Option Nat
  offset? : Option Nat
deriving DecidableEq

/-- Compare two optional values for sorting; a missing value sorts first,
as the storage engine sorts NULLs first. -/
def cmpOptVal : Option Value → Option Value → Ordering
  | none, none => .eq
  | none, some _ => .lt
  | some _, none => .gt
  | some a, some b =>
    if Value.ltb a b then .lt else if a = b then .eq else .gt

/-- Compare two rows under an ordered list of sort keys. -/
def cmpRows (keys : List SortKey) (r s : Row) : Ordering :=
  match keys with
  | [] => .eq
  | k :: rest =>
    let c := cmpOptVal (rowGet r k.field) (rowGet s k.field)
    let c := if k.desc then c.swap else c
    match c with
    | .eq => cmpRows rest r s
    | o => o

/-- Stable insertion: place `r` before the first element it does not
strictly follow, so earlier rows stay before equal later rows. -/
def insertSorted (cmp : Row → Row → Ordering) (r : Row) : List Row → List Row
  | [] => [r]
  | s :: ss =>
    if cmp r s ≠ Ordering.gt then r :: s :: ss else s :: insertSorted cmp r ss

/-- Stable insertion sort of rows, preserving storage order on ties. -/
def isort (cmp : Row → Row → Ordering) : List Row → List Row
  | [] => []
  | r :: rs => insertSorted cmp r (isort cmp rs)

/-- Modelled from the spec: a fresh query plan for a table (§4.2). -/
def query (t : String) : QueryPlan :=
  ⟨t, [], [], none, none⟩

/-- Modelled from the spec: `where(**filters)` compiles the filter mapping
against the target table's schema and appends the predicates, returning a
new plan (§4.2). -/
def whereQ (db : DB) (p : QueryPlan) (fs : FilterMap) : Except AkronError QueryPlan :=
  match getTable db p.table with
  | none => .error (.tableNotFound p.table)
  | some tbl =>
    match compileFilters tbl.schema fs with
    | .ok ps => .ok { p with preds := p.preds ++ ps }
    | .error e => .error e

/-- Parse one `order_by` argument: a leading `-` means descending. -/
def parseSortField (s : String) : SortKey :=
  match s.data with
  | '-' :: rest => ⟨String.mk rest, true⟩
  | _ => ⟨s, false⟩

/-- Modelled from the spec: `order_by(*fields)` appends sort keys; an
unknown field fails with `InvalidFieldError` (§4.2). -/
def orderByQ (db : DB) (p : QueryPlan) (fields : List String) : Except AkronError QueryPlan :=
  match getTable db p.table with
  | none => .error (.tableNotFound p.table)
  | some tbl =>
    match fields.find? (fun f => !schemaHas tbl.schema (parseSortField f).field) with
    | some f => .error (.invalidField (parseSortField f).field)
    | none => .ok { p with sortKeys := p.sortKeys ++ fields.map parseSortField }

/-- Modelled from the spec: `limit(n)`, a non-negative integer; `limit(0)`
is a valid no-rows request (§4.2). -/
def limitQ (p : QueryPlan) (n : Int) : Except AkronError QueryPlan :=
  if n < 0 then .error (.invalidArgument "limit must be non-negative")
  else .ok { p with limit? := some n.toNat }

/-- Modelled from the spec: `offset(n)`, a non-negative integer (§4.2). -/
def offsetQ (p : QueryPlan) (n : Int) : Except AkronError QueryPlan :=
  if n < 0 then .error (.invalidArgument "offset must be non-negative")
  else .ok { p with offset? := some n.toNat }

/-- Modelled from the spec: `paginate(page, per_page)` requires both ≥ 1,
sets `offset = (page-1)*per_page` and `limit = per_page`, and fails with
`InvalidArgumentError` otherwise (§4.2). -/
def paginateQ (p : QueryPlan) (page perPage : Int) : Except AkronError QueryPlan :=
  if page < 1 || perPage < 1 then
    .error (.invalidArgument "page and per_page must be at least 1")
  else
    .ok { p with offset? := some ((page - 1) * perPage).toNat,
                 limit? := some perPage.toNat }

/-- Modelled from the spec: `all()` executes the plan: filter, stable sort
by the sort keys, then apply offset and limit (§4.2, §4.4). -/
def execAll (db : DB) (p : QueryPlan) : Except AkronError (List Row) :=
  match getTable db p.table with
  | none => .error (.tableNotFound p.table)
  | some tbl =>
    let matched := tbl.rows.filter (matchesAll p.preds)
    let sorted := isort (cmpRows p.sortKeys) matched
    let afterOff := sorted.drop (p.offset?.getD 0)
    .ok (match p.limit? with
         | some n => afterOff.take n
         | none => afterOff)

/-- Modelled from the spec: `count()` executes a COUNT variant of the
plan's filters, ignoring order, limit and offset (§4.2). -/
def execCount (db : DB) (p : QueryPlan) : Except AkronError Nat :=
  match getTable db p.table with
  | none => .error (.tableNotFound p.table)
  | some tbl => .ok (tbl.rows.filter (matchesAll p.preds)).length

/-- Modelled from the spec: `first()` is `limit(1)` followed by `all()`,
projected to the single record; an empty result yields the no-result
sentinel `none` instead of an error (§4.2). -/
def execFirst (db : DB) (p : QueryPlan) : Except AkronError (Option Row) :=
  match execAll db { p with limit? := some 1 } with
  | .ok rs => .ok rs.head?
  | .error e => .error e

/-- The non-terminal builder calls, reified for the frame property: each
one maps a plan to a new plan without touching the database. -/
inductive BuilderCall where
  | whereC : FilterMap → BuilderCall
  | orderByC : List String → BuilderCall
  | limitC : Int → BuilderCall
  | offsetC : Int → BuilderCall
  | paginateC : Int → Int → BuilderCall

/-- Apply a non-terminal builder call in a session whose state is the
database; the database component is returned so the call's (absence of)
side effects is observable. -/
def applyCall (db : DB) (c : BuilderCall) (p : QueryPlan) :
    Except AkronError QueryPlan × DB :=
  match c with
  | .whereC fs => (whereQ db p fs, db)
  | .orderByC fields => (orderByQ db p fields, db)
  | .limitC n => (limitQ p n, db)
  | .offsetC n => (offsetQ p n, db)
  | .paginateC a b => (paginateQ p a b, db)

/-- Modelled from the spec: `insert` stores the record with an
engine-assigned autoincrement primary key and returns the generated key
(§4.4); callers omit the `id` column (the examples never supply one). -/
def insert (db : DB) (t : String) (r : Row) : Except AkronError (Int × DB) :=
  match getTable db t with
  | none => .error (.tableNotFound t)
  | some tbl =>
    let k := tbl.nextId
    let row : Row := ("id", Value.int k) :: r
    .ok (k, setTable db t { tbl with rows := tbl.rows ++ [row], nextId := k + 1 })

/-- Tag each record with consecutive autoincrement keys starting at `n`. -/
def tagRows (n : Int) : List Row → List Row
  | [] => []
  | r :: rs => (("id", Value.int n) :: r) :: tagRows (n + 1) rs

/-- The consecutive keys a batched insert of `len` records assigns,
starting at `n`. -/
def bulkKeys (n : Int) (len : Nat) : List Int :=
  (List.range len).map (fun (i : Nat) => n + (i : Int))

/-- Modelled from the spec: `bulk_insert` performs a single batched insert
and returns the generated keys in input order (§4.4). -/
def bulkInsert (db : DB) (t : String) (rs : List Row) :
    Except AkronError (List Int × DB) :=
  match getTable db t with
  | none => .error (.tableNotFound t)
  | some tbl =>
    .ok (bulkKeys tbl.nextId rs.length,
         setTable db t { tbl with rows := tbl.rows ++ tagRows tbl.nextId rs,
                                  nextId := tbl.nextId + rs.length })

/-- Insert records one at a time in list order, collecting the generated
keys: the reference behaviour `bulk_insert` must be equivalent to (§4.4). -/
def insertEach (db : DB) (t : String) : List Row → Except AkronError (List Int × DB)
  | [] => .ok ([], db)
  | r :: rs =>
    match insert db t r with
    | .error e => .error e
    | .ok (k, db₁) =>
      match insertEach db₁ t rs with
      | .error e => .error e
      | .ok (ks, db₂) => .ok (k :: ks, db₂)

/-- Modelled from the spec: `find` is a convenience wrapper building a
trivial plan from a plain filter dictionary (§4.4); rows come back in
storage order. -/
def find (db : DB) (t : String) (fs : FilterMap) : Except AkronError (List Row) :=
  match getTable db t with
  | none => .error (.tableNotFound t)
  | some tbl =>
    match compileFilters tbl.schema fs with
    | .ok ps => .ok (tbl.rows.filter (matchesAll ps))
    | .error e => .error e

/-- Modelled from the spec: `find_one` returns the first matching record,
or `none` (§4.4, §7: not-found is a normal code path). -/
def findOne (db : DB) (t : String) (fs : FilterMap) :
    Except AkronError (Option Row) :=
  match getTable db t with
  | none => .error (.tableNotFound t)
  | some tbl =>
    match compileFilters tbl.schema fs with
    | .ok ps => .ok (tbl.rows.find? (matchesAll ps))
    | .error e => .error e

/-- Modelled from the spec: `count` with a plain filter dictionary. -/
def countConv (db : DB) (t : String) (fs : FilterMap) : Except AkronError Nat :=
  match getTable db t with
  | none => .error (.tableNotFound t)
  | some tbl =>
    match compileFilters tbl.schema fs with
    | .ok ps => .ok (tbl.rows.filter (matchesAll ps)).length
    | .error e => .error e

/-- Modelled from the spec: `exists` with a plain filter dictionary. -/
def existsConv (db : DB) (t : String) (fs : FilterMap) : Except AkronError Bool :=
  match countConv db t fs with
  | .ok n => .ok (decide (0 < n))
  | .error e => .error e

/-- Replace a binding whose key is `f` with the new value. -/
def updF (f : String) (v : Value) (q : String × Value) : String × Value :=
  if q.1 == f then (f, v) else q

/-- Set one field of a row: replace the binding in place when present,
append it otherwise. -/
def setField (r : Row) (f : String) (v : Value) : Row :=
  if (r.find? (fun q => q.1 == f)).isSome then r.map (updF f v)
  else r ++ [(f, v)]

/-- Apply an update-value mapping to a row, field by field. -/
def applyUpdate (r : Row) (vals : Row) : Row :=
  vals.foldl (fun acc fv => setField acc fv.1 fv.2) r

/-- Modelled from the spec: `update` applies the new values to exactly the
rows matching the compiled filter and returns the affected-row count
(§4.4). -/
def update (db : DB) (t : String) (fs : FilterMap) (vals : Row) :
    Except AkronError (Nat × DB) :=
  match getTable db t with
  | none => .error (.tableNotFound t)
  | some tbl =>
    match compileFilters tbl.schema fs with
    | .error e => .error e
    | .ok ps =>
      let m := matchesAll ps
      .ok ((tbl.rows.filter m).length,
           setTable db t
             { tbl with rows := tbl.rows.map (fun r => if m r then applyUpdate r vals else r) })

/-- Modelled from the spec: `delete` removes exactly the rows matching the
compiled filter and returns the affected-row count (§4.4). -/
def deleteOp (db : DB) (t : String) (fs : FilterMap) :
    Except AkronError (Nat × DB) :=
  match getTable db t with
  | none => .error (.tableNotFound t)
  | some tbl =>
    match compileFilters tbl.schema fs with
    | .error e => .error e
    | .ok ps =>
      let m := matchesAll ps
      .ok ((tbl.rows.filter m).length,
           setTable db t { tbl with rows := tbl.rows.filter (fun r => !m r) })

/-- View a plain value mapping as an equality filter. -/
def eqFilter (lookup : Row) : FilterMap :=
  lookup.map (fun fv => (fv.1, FilterVal.one fv.2))

/-- Modelled from the spec: `upsert` runs `find_one` by the lookup filter;
if found it applies `update` with the new values and returns the merged
record, otherwise it inserts the lookup and update values combined and
returns the inserted record (§4.4). -/
def upsert (db : DB) (t : String) (lookup : Row) (vals : Row) :
    Except AkronError (Row × DB) :=
  match findOne db t (eqFilter lookup) with
  | .error e => .error e
  | .ok (some r) =>
    match update db t (eqFilter lookup) vals with
    | .error e => .error e
    | .ok (_, db₁) => .ok (applyUpdate r vals, db₁)
  | .ok none =>
    let combined := applyUpdate lookup vals
    match insert db t combined with
    | .error e => .error e
    | .ok (k, db₁) => .ok (("id", Value.int k) :: combined, db₁)

/-- Modelled from the spec: `get_or_create` returns an existing match
unchanged, else inserts lookup plus defaults, reporting creation (§4.4). -/
def getOrCreate (db : DB) (t : String) (lookup defaults : Row) :
    Except AkronError (Row × Bool × DB) :=
  match findOne db t (eqFilter lookup) with
  | .error e => .error e
  | .ok (some r) => .ok (r, false, db)
  | .ok none =>
    let combined := applyUpdate lookup defaults
    match insert db t combined with
    | .error e => .error e
    | .ok (k, db₁) => .ok (("id", Value.int k) :: combined, true, db₁)

/-- The statements a transaction scope may execute.  `failS` models an
execution-time failure surfaced from the storage engine mid-scope (e.g. a
constraint violation, §7). -/
inductive Stmt where
  | insertS : String → Row → Stmt
  | bulkInsertS : String → List Row → Stmt
  | updateS : String → FilterMap → Row → Stmt
  | deleteS : String → FilterMap → Stmt
  | upsertS : String → Row → Row → Stmt
  | failS : AkronError → Stmt

/-- Execute one statement against the database. -/
def execStmt (db : DB) : Stmt → Except AkronError DB
  | .insertS t r =>
    match insert db t r with
    | .ok (_, db') => .ok db'
    | .error e => .error e
  | .bulkInsertS t rs =>
    match bulkInsert db t rs with
    | .ok (_, db') => .ok db'
    | .error e => .error e
  | .updateS t fs vals =>
    match update db t fs vals with
    | .ok (_, db') => .ok db'
    | .error e => .error e
  | .deleteS t fs =>
    match deleteOp db t fs with
    | .ok (_, db') => .ok db'
    | .error e => .error e
  | .upsertS t lookup vals =>
    match upsert db t lookup vals with
    | .ok (_, db') => .ok db'
    | .error e => .error e
  | .failS e => .error e

/-- Run a list of statements in order, stopping at the first failure. -/
def runStmts (db : DB) : List Stmt → Except AkronError DB
  | [] => .ok db
  | s :: rest =>
    match execStmt db s with
    | .ok db' => runStmts db' rest
    | .error e => .error e

/-- The state of a transaction scope (§3 Data Model). -/
inductive TxState where
  | active | committed | rolledback
deriving DecidableEq

/-- Modelled from the spec: the Transaction Manager runs a scope's
statements on one connection; on success it commits, and on any failure it
rolls back every change made since scope entry — restoring the pre-scope
database — and re-raises the original failure (§4.5). -/
def transaction (db : DB) (stmts : List Stmt) : DB × TxState × Option AkronError :=
  match runStmts db stmts with
  | .ok db' => (db', .committed, none)
  | .error e => (db, .rolledback, some e)

/-- Modelled from the spec: outside a transaction scope each statement
auto-commits individually; a failed statement leaves the database as it
was (§7). -/
def autoCommit (db : DB) (s : Stmt) : DB :=
  match execStmt db s with
  | .ok db' => db'
  | .error _ => db

/-- A table is well formed when every stored row carries an integer `id`
smaller than the table's next autoincrement key. -/
def Table.wf (tbl : Table) : Bool :=
  tbl.rows.all (fun r =>
    match rowGet r "id" with
    | some (.int m) => decide (m < tbl.nextId)
    | _ => false)

/-- First-occurrence deduplication with an accumulator of seen elements. -/
def dedupAux {α : Type} [DecidableEq α] (seen : List α) : List α → List α
  | [] => []
  | a :: as =>
    if a ∈ seen then dedupAux seen as else a :: dedupAux (a :: seen) as

/-- The grouping key of a row under a group-by field list. -/
def aggKey (gb : List String) (r : Row) : List (Option Value) :=
  gb.map (rowGet r)

/-- Sum of the integer values in a list (non-integers contribute 0). -/
def sumInts (vs : List Value) : Int :=
  vs.foldl (fun acc v => match v with | .int n => acc + n | _ => acc) 0

/-- Modelled from the spec: apply one aggregate function to the collected
column values of a group; an unsupported function name fails with
`UnsupportedAggregateError` at render time (§4.3).  `avg` is modelled with
integer division, the approximation sufficient for the verified
properties. -/
def applyAggFn (fn : String) (vs : List Value) : Except AkronError Value :=
  match fn with
  | "count" => .ok (.int vs.length)
  | "sum" => .ok (.int (sumInts vs))
  | "avg" => .ok (.int (if vs.length = 0 then 0 else sumInts vs / vs.length))
  | "min" =>
    match vs with
    | [] => .ok (.int 0)
    | v :: rest => .ok (rest.foldl (fun a b => if Value.ltb b a then b else a) v)
  | "max" =>
    match vs with
    | [] => .ok (.int 0)
    | v :: rest => .ok (rest.foldl (fun a b => if Value.ltb a b then b else a) v)
  | _ => .error (.unsupportedAggregate fn)

/-- Compute the aggregated output fields `(alias, fn, field)` of one
group. -/
def aggFields : List (String × String × String) → List Row → Except AkronError Row
  | [], _ => .ok []
  | (al, fn, fld) :: rest, group =>
    match applyAggFn fn (group.filterMap (fun r => rowGet r fld)) with
    | .error e => .error e
    | .ok v =>
      match aggFields rest group with
      | .error e => .error e
      | .ok r => .ok ((al, v) :: r)

/-- Build one output record per group key: the group-by columns followed by
the aggregated fields. -/
def aggGroups (fns : List (String × String × String)) (gb : List String)
    (rows : List Row) : List (List (Option Value)) → Except AkronError (List Row)
  | [] => .ok []
  | key :: ks =>
    let group := rows.filter (fun r => aggKey gb r = key)
    match aggFields fns group with
    | .error e => .error e
    | .ok aggs =>
      match aggGroups fns gb rows ks with
      | .error e => .error e
      | .ok rest =>
        .ok (((gb.zip key).filterMap (fun fv => fv.2.map (fun v => (fv.1, v))) ++ aggs) :: rest)

/-- Group filtered rows by the group-by key (first-occurrence order) and
aggregate each group; an empty group-by list collapses to one row (§4.3). -/
def aggregateRows (fns : List (String × String × String)) (gb : List String)
    (rows : List Row) : Except AkronError (List Row) :=
  match gb with
  | [] =>
    match aggFields fns rows with
    | .error e => .error e
    | .ok r => .ok [r]
  | _ => aggGroups fns gb rows (dedupAux [] (rows.map (aggKey gb)))

/-- Modelled from the spec: `aggregate` filters via the Filter Compiler and
aggregates the matching rows under the aggregation spec (§4.3, §4.4). -/
def aggregate (db : DB) (t : String) (fns : List (String × String × String))
    (fs : FilterMap) (gb : List String) : Except AkronError (List Row) :=
  match getTable db t with
  | none => .error (.tableNotFound t)
  | some tbl =>
    match compileFilters tbl.schema fs with
    | .error e => .error e
    | .ok ps => aggregateRows fns gb (tbl.rows.filter (matchesAll ps))

/-- Specification-side strict order on values, stated propositionally:
numeric order on ints, lexicographic order on strings, false-before-true on
booleans. -/
def Value.specLt : Value → Value → Prop
  | .int a, .int b => a < b
  | .str a, .str b => charsLt a.data b.data = true
  | .bool a, .bool b => a = false ∧ b = true
  | _, _ => False

/-- Specification-side relational semantics of each operator (§8: e.g.
`gte` holds exactly on values ≥ the bound). -/
def opSpecSem : Op → Value → FilterVal → Prop
  | .eq, v, .one w => v = w
  | .ne, v, .one w => v ≠ w
  | .gt, v, .one w => Value.specLt w v
  | .gte, v, .one w => Value.specLt w v ∨ w = v
  | .lt, v, .one w => Value.specLt v w
  | .lte, v, .one w => Value.specLt v w ∨ v = w
  | .like, .str sv, .one (.str pat) => likeMatch pat.data sv.data = true
  | .inOp, v, .many ws => v ∈ ws
  | _, _, _ => False

/-! Concrete databases used to exercise the pipeline, mirroring the
repository's example scripts. -/

/-- The `users(id, name, age)` schema of the spec's concrete scenario. -/
def usersSchema : Schema := [("id", .int), ("name", .str), ("age", .int)]

/-- A fresh database holding one empty `users` table. -/
def usersDbBase : DB := createTable [] "users" usersSchema

/-- Three users aged 20, 30 and 40, as in the spec's concrete scenario. -/
def usersRows : List Row :=
  [[("name", Value.str "carol"), ("age", Value.int 20)],
   [("name", Value.str "alice"), ("age", Value.int 30)],
   [("name", Value.str "bob"), ("age", Value.int 40)]]

/-- The scenario database: `users` populated with the three records. -/
def usersDb : DB :=
  match runStmts usersDbBase [.bulkInsertS "users" usersRows] with
  | .ok d => d
  | .error _ => usersDbBase

/-- The spec's concrete query: `where(age__gt=25).order_by("-age").all()`
on the scenario database. -/
def scenarioResult : Except AkronError (List Row) :=
  match whereQ usersDb (query "users") [("age__gt", FilterVal.one (Value.int 25))] with
  | .error e => .error e
  | .ok p =>
    match orderByQ usersDb p ["-age"] with
    | .error e => .error e
    | .ok p' => execAll usersDb p'

/-- The `users(id, email, age)` schema used by the upsert scenarios. -/
def emailSchema : Schema := [("id", .int), ("email", .str), ("age", .int)]

/-- A fresh database holding one empty table under the email schema. -/
def emailDbBase : DB := createTable [] "users" emailSchema

/-- A filter key is bad when its suffix is outside the closed operator set
or its base field is absent from the schema (§4.1). -/
def badKeyB (s : Schema) (k : String) : Bool :=
  match keyOp k with
  | none => true
  | some (f, _) => !schemaHas s f

/-- The predicates a plain equality lookup compiles to. -/
def lookupPreds (lookup : Row) : List Predicate :=
  lookup.map (fun fv => ⟨fv.1, Op.eq, FilterVal.one fv.2⟩)

/-- Whether a row matches a plain equality lookup. -/
def matchEq (lookup : Row) : Row → Bool :=
  matchesAll (lookupPreds lookup)

/-- The plan `paginate(i+1, pp)` produces over a base plan. -/
def pagePlan (base : QueryPlan) (i pp : Nat) : QueryPlan :=
  { base with offset? := some (i * pp), limit? := some pp }

/-- Whether an engine result is a success. -/
def isOkB {α : Type} : Except AkronError α → Bool
  | .ok _ => true
  | .error _ => false

/-- The scenario database extended with a fourth user, giving four records
for the pagination partition scenario. -/
def users4Db : DB :=
  autoCommit usersDb (.insertS "users" [("name", Value.str "dan"), ("age", Value.int 50)])

/-- The lookup filter of the upsert scenarios. -/
def c4lookup : Row := [("email", Value.str "a")]

/-- State after a first upsert whose update values reassign the lookup
field itself. -/
def c4db1 : DB :=
  match upsert emailDbBase "users" c4lookup [("email", Value.str "b")] with
  | .ok (_, d) => d
  | .error _ => emailDbBase

/-- State after repeating that upsert. -/
def c4db2 : DB :=
  match upsert c4db1 "users" c4lookup [("email", Value.str "b")] with
  | .ok (_, d) => d
  | .error _ => c4db1

/-- An id-keyed lookup filter: the engine-owned autoincrement column. -/
def c4idLookup : Row := [("id", Value.int 5)]

/-- State after upserting age 9 under the id-keyed lookup into the empty
table. -/
def c4dbC1 : DB :=
  match upsert emailDbBase "users" c4idLookup [("age", Value.int 9)] with
  | .ok (_, d) => d
  | .error _ => emailDbBase

/-- State after repeating the id-keyed upsert with age 10. -/
def c4dbC2 : DB :=
  match upsert c4dbC1 "users" c4idLookup [("age", Value.int 10)] with
  | .ok (_, d) => d
  | .error _ => c4dbC1

/-- A database whose table already holds two rows matching the lookup
filter. -/
def c4dbB : DB :=
  match bulkInsert emailDbBase "users"
      [[("email", Value.str "a"), ("age", Value.int 1)],
       [("email", Value.str "a"), ("age", Value.int 2)]] with
  | .ok (_, d) => d
  | .error _ => emailDbBase

/-- That database after a first upsert on the lookup filter. -/
def c4dbB1 : DB :=
  match upsert c4dbB "users" c4lookup [("age", Value.int 3)] with
  | .ok (_, d) => d
  | .error _ => c4dbB

/-- That database after a second upsert with different update values. -/
def c4dbB2 : DB :=
  match upsert c4dbB1 "users" c4lookup [("age", Value.int 4)] with
  | .ok (_, d) => d
  | .error _ => c4dbB1

/-- State after upserting age 1 under the email lookup into the empty
table. -/
def c4gdb1 : DB :=
  match upsert emailDbBase "users" c4lookup [("age", Value.int 1)] with
  | .ok (_, d) => d
  | .error _ => emailDbBase

/-- State after a second upsert with age 2 under the same lookup. -/
def c4gdb2 : DB :=
  match upsert c4gdb1 "users" c4lookup [("age", Value.int 2)] with
  | .ok (_, d) => d
  | .error _ => c4gdb1

/-- The scenario database after inserting a fourth user record that omits
the id column. -/
def c9db : DB :=
  match insert usersDb "users" [("name", Value.str "emma"), ("age", Value.int 27)] with
  | .ok (_, d) => d
  | .error _ => usersDb

/-- The populated users table of the scenario database. -/
def usersTbl : Table :=
  match getTable usersDb "users" with
  | some tbl => tbl
  | none => ⟨[], [], 1⟩

/-! ## General lemmas about the embedded structures -/

theorem find?_eq_head?_filter {α : Type} (p : α → Bool) (l : List α) :
    l.find? p = (l.filter p).head? := by
  induction l with
  | nil => rfl
  | cons a l ih =>
    cases h : p a
    · rw [List.find?_cons_of_neg _ (by simp [h]), List.filter_cons_of_neg (by simp [h]), ih]
    · rw [List.find?_cons_of_pos _ h, List.filter_cons_of_pos h, List.head?_cons]

theorem insertSorted_of_cmp_eq {cmp : Row → Row → Ordering} {r : Row}
    (h : ∀ s, cmp r s = .eq) (l : List Row) :
    insertSorted cmp r l = r :: l := by
  cases l with
  | nil => rfl
  | cons s ss => simp [insertSorted, h s]

theorem isort_cmpRows_nil (l : List Row) : isort (cmpRows []) l = l := by
  induction l with
  | nil => rfl
  | cons r rs ih =>
    rw [isort, ih, insertSorted_of_cmp_eq]
    intro s
    rfl

theorem matchesAll_singleton (p : Predicate) (r : Row) :
    matchesAll [p] r = evalPred r p := by
  simp [matchesAll]

theorem getTable_setTable_self (db : DB) (t : String) (tbl : Table) :
    getTable (setTable db t tbl) t = some tbl := by
  induction db with
  | nil => simp [setTable, getTable]
  | cons q rest ih =>
    obtain ⟨n, x⟩ := q
    by_cases h : n = t
    · simp [setTable, h, getTable]
    · simp only [setTable]
      rw [if_neg (by simpa using h)]
      simpa [getTable, List.find?_cons, h] using ih

theorem setTable_setTable (db : DB) (t : String) (a b : Table) :
    setTable (setTable db t a) t b = setTable db t b := by
  induction db with
  | nil => simp [setTable]
  | cons q rest ih =>
    obtain ⟨n, x⟩ := q
    by_cases h : n = t
    · simp [setTable, h]
    · simp only [setTable]
      rw [if_neg (by simpa using h), if_neg (by simpa using h)]
      simp only [setTable]
      rw [if_neg (by simpa using h), ih]

theorem setTable_self {db : DB} {t : String} {tbl : Table}
    (h : getTable db t = some tbl) : setTable db t tbl = db := by
  induction db with
  | nil => simp [getTable] at h
  | cons q rest ih =>
    obtain ⟨n, x⟩ := q
    by_cases hn : n = t
    · simp [getTable, List.find?_cons, hn] at h
      simp [setTable, hn, h]
    · simp [getTable, List.find?_cons, hn] at h
      simp only [setTable]
      rw [if_neg (by simpa using hn), ih (by simpa [getTable] using h)]

theorem ltb_iff (a b : Value) : Value.ltb a b = true ↔ Value.specLt a b := by
  cases a <;> cases b <;> simp [Value.ltb, Value.specLt]

theorem leb_iff (a b : Value) :
    Value.leb a b = true ↔ (Value.specLt a b ∨ a = b) := by
  simp [Value.leb, ltb_iff]

theorem evalOp_iff (op : Op) (v : Value) (fv : FilterVal) :
    evalOp op v fv = true ↔ opSpecSem op v fv := by
  cases op <;> cases fv <;>
    first
      | (simp [evalOp, opSpecSem, ltb_iff, leb_iff]; done)
      | (rename_i w
         cases v <;> cases w <;> simp [evalOp, opSpecSem, ltb_iff, leb_iff])

theorem boolEq_of_iff {a b : Bool} (h : a = true ↔ b = true) : a = b := by
  cases a <;> cases b <;> simp_all

theorem rowGet_cons (q : String × Value) (rest : Row) (f : String) :
    rowGet (q :: rest) f = if q.1 == f then some q.2 else rowGet rest f := by
  unfold rowGet
  rw [List.find?_cons]
  cases hq : (q.1 == f) <;> simp [hq]

theorem rowGet_append (r₁ r₂ : Row) (f : String) :
    rowGet (r₁ ++ r₂) f = (rowGet r₁ f).or (rowGet r₂ f) := by
  unfold rowGet
  rw [List.find?_append]
  cases h : r₁.find? (fun q => q.1 == f) <;> simp [h]

theorem rowGet_map_upd_self {r : Row} {f : String} {v : Value}
    (h : (r.find? (fun q => q.1 == f)).isSome = true) :
    rowGet (r.map (updF f v)) f = some v := by
  induction r with
  | nil => simp at h
  | cons q rest ih =>
    rw [List.map_cons]
    cases hq : (q.1 == f)
    · rw [show updF f v q = q from by simp [updF, hq]]
      rw [List.find?_cons_of_neg _ (by simp [hq])] at h
      rw [rowGet_cons, if_neg (by simp [hq])]
      exact ih h
    · rw [show updF f v q = (f, v) from by simp [updF, hq]]
      rw [rowGet_cons, if_pos (by simp)]

theorem rowGet_setField_self (r : Row) (f : String) (v : Value) :
    rowGet (setField r f v) f = some v := by
  unfold setField
  split
  · exact rowGet_map_upd_self (by assumption)
  · rename_i hnone
    have hfind : r.find? (fun q => q.1 == f) = none :=
      Option.not_isSome_iff_eq_none.mp hnone
    rw [rowGet_append, show rowGet r f = none from by unfold rowGet; rw [hfind]]
    rw [rowGet_cons, if_pos (by simp)]
    rfl

theorem rowGet_map_upd_other {g f : String} (hne : g ≠ f) (r : Row) (v : Value) :
    rowGet (r.map (updF f v)) g = rowGet r g := by
  induction r with
  | nil => rfl
  | cons q rest ih =>
    rw [List.map_cons]
    cases hq : (q.1 == f)
    · rw [show updF f v q = q from by simp [updF, hq]]
      rw [rowGet_cons, rowGet_cons, ih]
    · rw [show updF f v q = (f, v) from by simp [updF, hq]]
      have hq1 : q.1 = f := by simpa using hq
      have hfg : ¬((f == g) = true) := by simpa using fun hh => hne hh.symm
      rw [rowGet_cons, rowGet_cons, if_neg hfg, if_neg (by simpa [hq1] using hfg), ih]

theorem rowGet_setField_other {g f : String} (hne : g ≠ f) (r : Row) (v : Value) :
    rowGet (setField r f v) g = rowGet r g := by
  unfold setField
  split
  · exact rowGet_map_upd_other hne r v
  · rw [rowGet_append,
        show rowGet [(f, v)] g = none from by
          rw [rowGet_cons, if_neg (by simpa using fun hh => hne hh.symm)]
          rfl]
    rw [Option.or_none]

theorem applyUpdate_cons (r : Row) (fv : String × Value) (rest : Row) :
    applyUpdate r (fv :: rest) = applyUpdate (setField r fv.1 fv.2) rest := rfl

theorem rowGet_applyUpdate_notin {f : String} {vals : Row}
    (h : ∀ fv ∈ vals, fv.1 ≠ f) (r : Row) :
    rowGet (applyUpdate r vals) f = rowGet r f := by
  induction vals generalizing r with
  | nil => rfl
  | cons fv rest ih =>
    rw [applyUpdate_cons,
        ih (fun x hx => h x (List.mem_cons_of_mem fv hx)),
        rowGet_setField_other (fun hh => h fv (List.mem_cons_self fv rest) hh.symm)]

theorem rowGet_applyUpdate_mem {f : String} {v : Value} {vals : Row}
    (hnd : (vals.map Prod.fst).Nodup) (hmem : (f, v) ∈ vals) (r : Row) :
    rowGet (applyUpdate r vals) f = some v := by
  induction vals generalizing r with
  | nil => simp at hmem
  | cons fv rest ih =>
    rw [List.map_cons] at hnd
    have hnd1 := (List.nodup_cons.mp hnd).1
    have hnd2 := (List.nodup_cons.mp hnd).2
    rcases List.mem_cons.mp hmem with heq | hrest
    · have hfst : fv.1 = f := by rw [← heq]
      have hnot : ∀ x ∈ rest, x.1 ≠ f := by
        intro x hx hx1
        rw [← hfst] at hx1
        exact hnd1 (hx1 ▸ List.mem_map_of_mem Prod.fst hx)
      rw [applyUpdate_cons, rowGet_applyUpdate_notin hnot,
          show setField r fv.1 fv.2 = setField r f v from by rw [← heq]]
      exact rowGet_setField_self r f v
    · rw [applyUpdate_cons]
      exact ih hnd2 hrest (setField r fv.1 fv.2)

theorem rowGet_mem_of_nodup {f : String} {v : Value} {r : Row}
    (hnd : (r.map Prod.fst).Nodup) (hmem : (f, v) ∈ r) :
    rowGet r f = some v := by
  induction r with
  | nil => simp at hmem
  | cons q rest ih =>
    rw [List.map_cons] at hnd
    have hnd1 := (List.nodup_cons.mp hnd).1
    have hnd2 := (List.nodup_cons.mp hnd).2
    rcases List.mem_cons.mp hmem with heq | hrest
    · rw [← heq, rowGet_cons, if_pos (by simp)]
    · have hf : f ∈ rest.map Prod.fst := List.mem_map_of_mem Prod.fst hrest
      have hq : ¬((q.1 == f) = true) := by
        intro hq1
        have hq1' : q.1 = f := by simpa using hq1
        exact hnd1 (hq1' ▸ hf)
      rw [rowGet_cons, if_neg hq]
      exact ih hnd2 hrest

theorem evalPred_eq_iff (r : Row) (f : String) (v : Value) :
    evalPred r ⟨f, .eq, .one v⟩ = true ↔ rowGet r f = some v := by
  cases h : rowGet r f <;> simp [evalPred, h, evalOp]

theorem matchEq_iff (lookup : Row) (r : Row) :
    matchEq lookup r = true ↔ ∀ fv ∈ lookup, rowGet r fv.1 = some fv.2 := by
  unfold matchEq matchesAll lookupPreds
  rw [List.all_eq_true]
  constructor
  · intro h fv hfv
    exact (evalPred_eq_iff r fv.1 fv.2).mp
      (h _ (List.mem_map_of_mem (fun fv => (⟨fv.1, .eq, .one fv.2⟩ : Predicate)) hfv))
  · intro h p hp
    obtain ⟨fv, hfv, rfl⟩ := List.mem_map.mp hp
    exact (evalPred_eq_iff r fv.1 fv.2).mpr (h fv hfv)

theorem matchEq_congr {lookup r s : Row}
    (h : ∀ fv ∈ lookup, rowGet r fv.1 = rowGet s fv.1) :
    matchEq lookup r = matchEq lookup s := by
  refine boolEq_of_iff ?_
  rw [matchEq_iff, matchEq_iff]
  constructor
  · intro hh fv hfv
    rw [← h fv hfv]
    exact hh fv hfv
  · intro hh fv hfv
    rw [h fv hfv]
    exact hh fv hfv

theorem matchEq_applyUpdate {lookup vals : Row}
    (hdisj : ∀ fv ∈ vals, fv.1 ∉ lookup.map Prod.fst) (r : Row) :
    matchEq lookup (applyUpdate r vals) = matchEq lookup r := by
  refine matchEq_congr (fun fv hfv => ?_)
  refine rowGet_applyUpdate_notin (fun x hx hx1 => ?_) r
  exact hdisj x hx (hx1 ▸ List.mem_map_of_mem Prod.fst hfv)

theorem filter_map_step {α : Type} (l : List α) (step : α → α) (m : α → Bool)
    (h : ∀ x ∈ l, m (step x) = m x) :
    (l.map step).filter m = (l.filter m).map step := by
  rw [List.filter_map]
  exact congrArg _ (List.filter_congr (fun x hx => h x hx))

theorem compileFilters_eqFilter {s : Schema} {lookup : Row}
    (h : ∀ fv ∈ lookup, splitKey fv.1 = (fv.1, none) ∧ schemaHas s fv.1 = true) :
    compileFilters s (eqFilter lookup) = .ok (lookupPreds lookup) := by
  induction lookup with
  | nil => rfl
  | cons fv rest ih =>
    obtain ⟨hsplit, hhas⟩ := h fv (by simp)
    simp only [eqFilter, List.map_cons, compileFilters, keyOp, hsplit, hhas, if_pos]
    rw [show (List.map (fun fv => (fv.1, FilterVal.one fv.2)) rest) = eqFilter rest from rfl]
    rw [ih (fun x hx => h x (by simp [hx]))]
    rfl

theorem compileFilters_bad {s : Schema} {fs : FilterMap}
    (h : ∃ kv ∈ fs, badKeyB s kv.1 = true) :
    ∃ k, compileFilters s fs = .error (.invalidFilter k) := by
  induction fs with
  | nil => simp at h
  | cons kv rest ih =>
    obtain ⟨kv', hmem, hbad⟩ := h
    cases hbk : badKeyB s kv.1
    · have hrest : kv' ∈ rest := by
        rcases List.mem_cons.mp hmem with heq | hr
        · rw [heq] at hbad
          rw [hbad] at hbk
          exact absurd hbk (by simp)
        · exact hr
      obtain ⟨k, hk⟩ := ih ⟨kv', hrest, hbad⟩
      unfold badKeyB at hbk
      unfold compileFilters
      cases hko : keyOp kv.1 with
      | none => simp [hko] at hbk
      | some p =>
        obtain ⟨f, op⟩ := p
        rw [hko] at hbk
        simp only at hbk
        have hhas : schemaHas s f = true := by
          cases hh : schemaHas s f
          · simp [hh] at hbk
          · rfl
        exact ⟨k, by simp [hko, hhas, hk]⟩
    · unfold badKeyB at hbk
      unfold compileFilters
      cases hko : keyOp kv.1 with
      | none => exact ⟨kv.1, by simp [hko]⟩
      | some p =>
        obtain ⟨f, op⟩ := p
        rw [hko] at hbk
        simp only [Bool.not_eq_true'] at hbk
        exact ⟨kv.1, by simp [hko, hbk]⟩

/-! ## Claim theorems -/

/-- C1: If an exception or error surfaces from any statement executed inside
a transaction scope, the Transaction Manager rolls back every change made
since scope entry and re-raises the original failure, so the post-scope
database is the pre-scope database and every table's row count is
unchanged; the scope terminates in the rolled-back state. -/
theorem C1_transaction_rollback (db : DB) (stmts : List Stmt) (e : AkronError)
    (h : runStmts db stmts = .error e) :
    transaction db stmts = (db, .rolledback, some e) ∧
    ∀ t, rowCount (transaction db stmts).1 t = rowCount db t := by
  constructor
  · unfold transaction
    rw [h]
  · intro t
    unfold transaction
    rw [h]

/-- Witness for C1: a scope that inserts a user and then hits an engine
failure ends rolled back on the pre-scope database, re-raising the original
error, and the users table still counts its three pre-scope rows. -/
theorem C1_transaction_rollback_witness :
    transaction usersDb
        [.insertS "users" [("name", Value.str "emma"), ("age", Value.int 27)],
         .failS (.custom "constraint violation")] =
      (usersDb, .rolledback, some (.custom "constraint violation")) ∧
    rowCount
      (transaction usersDb
        [.insertS "users" [("name", Value.str "emma"), ("age", Value.int 27)],
         .failS (.custom "constraint violation")]).1 "users" = 3 := by
  have h := C1_transaction_rollback usersDb
    [.insertS "users" [("name", Value.str "emma"), ("age", Value.int 27)],
     .failS (.custom "constraint violation")]
    (.custom "constraint violation") rfl
  exact ⟨h.1, (h.2 "users").trans rfl⟩

/-- C8: Every non-terminal builder call (where, order_by, limit, offset,
paginate) is a pure plan-to-plan step: it leaves the session's database
untouched, so executing any terminal call on the original plan before and
after applying the builder call yields identical results. -/
theorem C8_builder_frame (db : DB) (c : BuilderCall) (p : QueryPlan) :
    (applyCall db c p).2 = db ∧
    execAll (applyCall db c p).2 p = execAll db p ∧
    execCount (applyCall db c p).2 p = execCount db p ∧
    execFirst (applyCall db c p).2 p = execFirst db p := by
  cases c <;> exact ⟨rfl, rfl, rfl, rfl⟩

/-- C5: A filter mapping containing a key whose suffix is outside the closed
operator set or whose base field is absent from the schema is rejected by
the Filter Compiler with InvalidFilterError; every engine operation given
that mapping fails with that error before any statement reaches storage,
and the stored data is left unchanged. -/
theorem C5_invalid_filter_rejected (db : DB) (t : String) (tbl : Table)
    (fs : FilterMap) (vals : Row)
    (htbl : getTable db t = some tbl)
    (hbad : ∃ kv ∈ fs, badKeyB tbl.schema kv.1 = true) :
    (∃ k, compileFilters tbl.schema fs = .error (.invalidFilter k)) ∧
    (∃ k, find db t fs = .error (.invalidFilter k)) ∧
    (∃ k, update db t fs vals = .error (.invalidFilter k)) ∧
    (∃ k, deleteOp db t fs = .error (.invalidFilter k)) ∧
    autoCommit db (.updateS t fs vals) = db ∧
    autoCommit db (.deleteS t fs) = db := by
  obtain ⟨k, hk⟩ := compileFilters_bad hbad
  refine ⟨⟨k, hk⟩, ⟨k, ?_⟩, ⟨k, ?_⟩, ⟨k, ?_⟩, ?_, ?_⟩
  · simp [find, htbl, hk]
  · simp [update, htbl, hk]
  · simp [deleteOp, htbl, hk]
  · simp [autoCommit, execStmt, update, htbl, hk]
  · simp [autoCommit, execStmt, deleteOp, htbl, hk]

/-- Witness for C5: the key `age__foo` carries an unknown suffix, so `find`
fails with InvalidFilterError and an update statement using it leaves the
database unchanged. -/
theorem C5_invalid_filter_rejected_witness :
    (∃ k, find usersDb "users" [("age__foo", FilterVal.one (Value.int 1))] =
      .error (.invalidFilter k)) ∧
    autoCommit usersDb
      (.updateS "users" [("age__foo", FilterVal.one (Value.int 1))] []) = usersDb := by
  have h := C5_invalid_filter_rejected usersDb "users" usersTbl
    [("age__foo", FilterVal.one (Value.int 1))] [] rfl (by decide)
  exact ⟨h.2.1, h.2.2.2.2.1⟩

/-- C7: `first()` equals `limit(1)` followed by `all()` projected to the
single element; when the table exists it always returns a result (never an
error), and when no row matches the plan's predicates it returns the
no-result sentinel `none`. -/
theorem C7_first_limit_one (db : DB) (p : QueryPlan) (tbl : Table)
    (htbl : getTable db p.table = some tbl) :
    limitQ p 1 = .ok { p with limit? := some 1 } ∧
    execFirst db p =
      (match execAll db { p with limit? := some 1 } with
       | .ok rs => .ok rs.head?
       | .error e => .error e) ∧
    (∃ o, execFirst db p = .ok o) ∧
    (tbl.rows.filter (matchesAll p.preds) = [] → execFirst db p = .ok none) := by
  refine ⟨rfl, rfl, ?_, ?_⟩
  · unfold execFirst execAll
    simp [htbl]
  · intro h
    unfold execFirst execAll
    simp [htbl, h, isort]

/-- C2: For every supported operator `op`, field and value, a query built
with `where(field__op=value)` executes to exactly the rows whose stored
field value satisfies the operator's relational semantics against the
filter value; in particular on the users table holding ages 20/30/40,
`where(age__gt=25).order_by("-age").all()` returns the age-40 record then
the age-30 record and nothing else. -/
theorem C2_where_operator_semantics (db : DB) (t : String) (tbl : Table)
    (k f sname : String) (op : Op) (fv : FilterVal)
    (htbl : getTable db t = some tbl)
    (hsplit : splitKey k = (f, some sname))
    (hop : lookupOp sname = some op)
    (hhas : schemaHas tbl.schema f = true) :
    (∃ p, whereQ db (query t) [(k, fv)] = .ok p ∧
       execAll db p = .ok (tbl.rows.filter (fun r => evalPred r ⟨f, op, fv⟩))) ∧
    (∀ r, evalPred r ⟨f, op, fv⟩ = true ↔
       ∃ v, rowGet r f = some v ∧ opSpecSem op v fv) ∧
    scenarioResult = .ok
      [[("id", Value.int 3), ("name", Value.str "bob"), ("age", Value.int 40)],
       [("id", Value.int 2), ("name", Value.str "alice"), ("age", Value.int 30)]] := by
  refine ⟨?_, ?_, rfl⟩
  · have hcomp : compileFilters tbl.schema [(k, fv)] = .ok [⟨f, op, fv⟩] := by
      unfold compileFilters keyOp
      rw [hsplit]
      simp [hop, hhas, compileFilters]
    have hmatch : matchesAll [(⟨f, op, fv⟩ : Predicate)] =
        fun r => evalPred r ⟨f, op, fv⟩ :=
      funext (fun r => matchesAll_singleton _ r)
    refine ⟨{ query t with preds := [⟨f, op, fv⟩] }, ?_, ?_⟩
    · simp [whereQ, query, htbl, hcomp]
    · simp [execAll, query, htbl, hmatch, isort_cmpRows_nil]
  · intro r
    cases hg : rowGet r f <;> simp [evalPred, hg, evalOp_iff]

/-- Witness for C2 at the operator `gt` on the users table: the compiled
where-plan returns exactly the rows whose age exceeds 25. -/
theorem C2_where_operator_semantics_witness :
    ∃ p, whereQ usersDb (query "users")
          [("age__gt", FilterVal.one (Value.int 25))] = .ok p ∧
      execAll usersDb p =
        .ok (usersTbl.rows.filter
          (fun r => evalPred r ⟨"age", .gt, .one (.int 25)⟩)) :=
  (C2_where_operator_semantics usersDb "users" usersTbl "age__gt" "age" "gt"
    .gt (.one (.int 25)) rfl rfl rfl rfl).1

theorem chunks_flatten {α : Type} (pp : Nat) (k : Nat) (l : List α) :
    ((List.range k).map (fun i => (l.drop (i * pp)).take pp)).flatten =
      l.take (k * pp) := by
  induction k with
  | zero => simp
  | succ k ih =>
    rw [List.range_succ, List.map_append, List.flatten_append, ih]
    rw [show (k + 1) * pp = k * pp + pp from by ring, List.take_add]
    simp

theorem execAll_eq_of_getTable (db : DB) (p : QueryPlan) (tbl : Table)
    (hg : getTable db p.table = some tbl) :
    execAll db p = .ok
      (match p.limit? with
       | some n =>
         ((isort (cmpRows p.sortKeys)
            (tbl.rows.filter (matchesAll p.preds))).drop (p.offset?.getD 0)).take n
       | none =>
         (isort (cmpRows p.sortKeys)
            (tbl.rows.filter (matchesAll p.preds))).drop (p.offset?.getD 0)) := by
  unfold execAll
  rw [hg]

theorem execAll_page {db : DB} {base : QueryPlan} {l : List Row}
    (hl : execAll db base = .ok l)
    (hlim : base.limit? = none) (hoff : base.offset? = none)
    (off lim : Nat) :
    execAll db { base with offset? := some off, limit? := some lim } =
      .ok ((l.drop off).take lim) := by
  cases hg : getTable db base.table with
  | none =>
    rw [execAll] at hl
    rw [hg] at hl
    exact absurd hl (by simp)
  | some tbl =>
    rw [execAll_eq_of_getTable db base tbl hg] at hl
    rw [hlim, hoff] at hl
    simp only [Option.getD_none, List.drop_zero, Except.ok.injEq] at hl
    rw [execAll_eq_of_getTable db { base with offset? := some off, limit? := some lim }
          tbl hg]
    simp only [Except.ok.injEq]
    rw [hl]
    rfl

/-- C6: `paginate(page, per_page)` with both arguments at least 1 produces
the plan with `offset = (page-1)*per_page` and `limit = per_page`, fails
with InvalidArgumentError whenever either argument is below 1, and
consecutive pages of size `per_page` over `N = k * per_page` records
partition the result set with no overlap and no omission. -/
theorem C6_paginate_partition (db : DB) (base : QueryPlan) (l : List Row)
    (k pp : Nat) (hpp : 1 ≤ pp)
    (hl : execAll db base = .ok l)
    (hlim : base.limit? = none) (hoff : base.offset? = none)
    (hlen : l.length = k * pp) :
    (∀ page perPage : Int, 1 ≤ page → 1 ≤ perPage →
      paginateQ base page perPage =
        .ok { base with offset? := some ((page - 1) * perPage).toNat,
                        limit? := some perPage.toNat }) ∧
    (∀ page perPage : Int, page < 1 ∨ perPage < 1 →
      ∃ m, paginateQ base page perPage = .error (.invalidArgument m)) ∧
    (∀ i, i < k →
      paginateQ base ((i : Int) + 1) (pp : Int) = .ok (pagePlan base i pp) ∧
      execAll db (pagePlan base i pp) = .ok ((l.drop (i * pp)).take pp)) ∧
    ((List.range k).map (fun i => (l.drop (i * pp)).take pp)).flatten = l := by
  refine ⟨?_, ?_, ?_, ?_⟩
  · intro page perPage h1 h2
    have hc : ¬(page < 1 ∨ perPage < 1) := by omega
    simp [paginateQ, hc]
  · intro page perPage h
    refine ⟨"page and per_page must be at least 1", ?_⟩
    simp [paginateQ, h]
  · intro i hi
    constructor
    · have hc : ¬((i : Int) < 0 ∨ pp = 0) := by omega
      have hv : ((i : Int) * (pp : Int)).toNat = i * pp := by
        rw [show ((i : Int) * (pp : Int)) = ((i * pp : Nat) : Int) from by
              push_cast; ring]
        exact Int.toNat_natCast _
      simp [paginateQ, pagePlan, hc, hv]
    · exact execAll_page hl hlim hoff (i * pp) pp
  · rw [chunks_flatten, ← hlen, List.take_length]

/-- Witness for C6 over four users paginated two per page: page 1 holds the
first two records, page 2 the last two, and together they recompose the
full result list. -/
theorem C6_paginate_partition_witness :
    execAll users4Db (pagePlan (query "users") 0 2) = .ok
      [[("id", Value.int 1), ("name", Value.str "carol"), ("age", Value.int 20)],
       [("id", Value.int 2), ("name", Value.str "alice"), ("age", Value.int 30)]] ∧
    execAll users4Db (pagePlan (query "users") 1 2) = .ok
      [[("id", Value.int 3), ("name", Value.str "bob"), ("age", Value.int 40)],
       [("id", Value.int 4), ("name", Value.str "dan"), ("age", Value.int 50)]] ∧
    paginateQ (query "users") 2 2 = .ok (pagePlan (query "users") 1 2) := by
  have h := C6_paginate_partition users4Db (query "users")
    [[("id", Value.int 1), ("name", Value.str "carol"), ("age", Value.int 20)],
     [("id", Value.int 2), ("name", Value.str "alice"), ("age", Value.int 30)],
     [("id", Value.int 3), ("name", Value.str "bob"), ("age", Value.int 40)],
     [("id", Value.int 4), ("name", Value.str "dan"), ("age", Value.int 50)]]
    2 2 (by omega) rfl rfl rfl rfl
  refine ⟨((h.2.2.1 0 (by omega)).2).trans rfl,
          ((h.2.2.1 1 (by omega)).2).trans rfl,
          ((h.2.2.1 1 (by omega)).1).trans rfl⟩

/-- C10: The plain-dictionary filter argument of find, find_one, count,
exists and aggregate goes through the same Filter Compiler as the query
builder's where, with identical row-matching semantics; a suffix-free key
means equality; and count("users", age__lt=30) counts exactly the single
user younger than 30 in the scenario database. -/
theorem C10_convenience_filter_semantics (db : DB) (t : String) (fs : FilterMap) :
    (∀ (s : Schema) (k : String) (v : FilterVal), splitKey k = (k, none) →
       schemaHas s k = true →
       compileFilters s [(k, v)] = .ok [⟨k, .eq, v⟩]) ∧
    find db t fs = (match whereQ db (query t) fs with
                    | .ok p => execAll db p
                    | .error e => .error e) ∧
    countConv db t fs = (match whereQ db (query t) fs with
                         | .ok p => execCount db p
                         | .error e => .error e) ∧
    findOne db t fs = (match find db t fs with
                       | .ok rs => .ok rs.head?
                       | .error e => .error e) ∧
    existsConv db t fs = (match countConv db t fs with
                          | .ok n => .ok (decide (0 < n))
                          | .error e => .error e) ∧
    (∀ fns gb, aggregate db t fns fs gb =
       (match whereQ db (query t) fs with
        | .ok p => (match execAll db p with
                    | .ok rows => aggregateRows fns gb rows
                    | .error e => .error e)
        | .error e => .error e)) ∧
    countConv usersDb "users" [("age__lt", FilterVal.one (Value.int 30))] = .ok 1 := by
  refine ⟨?_, ?_, ?_, ?_, rfl, ?_, rfl⟩
  · intro s k v h1 h2
    unfold compileFilters keyOp
    rw [h1]
    simp [h2, compileFilters]
  · cases hg : getTable db t with
    | none => simp [find, whereQ, query, hg]
    | some tbl =>
      cases hc : compileFilters tbl.schema fs with
      | error e => simp [find, whereQ, query, hg, hc]
      | ok ps => simp [find, whereQ, query, hg, hc, execAll, isort_cmpRows_nil]
  · cases hg : getTable db t with
    | none => simp [countConv, whereQ, query, hg]
    | some tbl =>
      cases hc : compileFilters tbl.schema fs with
      | error e => simp [countConv, whereQ, query, hg, hc]
      | ok ps => simp [countConv, whereQ, query, hg, hc, execCount]
  · cases hg : getTable db t with
    | none => simp [findOne, find, hg]
    | some tbl =>
      cases hc : compileFilters tbl.schema fs with
      | error e => simp [findOne, find, hg, hc]
      | ok ps =>
        simp only [findOne, find, hg, hc]
        rw [find?_eq_head?_filter]
  · intro fns gb
    cases hg : getTable db t with
    | none => simp [aggregate, whereQ, query, hg]
    | some tbl =>
      cases hc : compileFilters tbl.schema fs with
      | error e => simp [aggregate, whereQ, query, hg, hc]
      | ok ps => simp [aggregate, whereQ, query, hg, hc, execAll, isort_cmpRows_nil]

/-- Witness for C10: a suffix-free key compiles to an equality predicate on
the users schema. -/
theorem C10_convenience_filter_semantics_witness :
    compileFilters usersSchema [("age", FilterVal.one (Value.int 30))] =
      .ok [⟨"age", .eq, .one (.int 30)⟩] :=
  (C10_convenience_filter_semantics usersDb "users" []).1 usersSchema "age"
    (.one (.int 30)) rfl rfl

theorem find?_wfRows_none {tbl : Table} (hwf : tbl.wf = true) {key : Int}
    (hk : tbl.nextId ≤ key) :
    tbl.rows.find? (matchesAll [⟨"id", .eq, .one (.int key)⟩]) = none := by
  rw [List.find?_eq_none]
  intro x hx
  unfold Table.wf at hwf
  rw [List.all_eq_true] at hwf
  have hx' := hwf x hx
  cases hg : rowGet x "id" with
  | none =>
    rw [hg] at hx'
    exact absurd hx' (by simp)
  | some v =>
    cases v with
    | int m =>
      rw [hg] at hx'
      simp only at hx'
      rw [decide_eq_true_eq] at hx'
      simp [matchesAll_singleton, evalPred, hg, evalOp]
      omega
    | str s =>
      rw [hg] at hx'
      exact absurd hx' (by simp)
    | bool b =>
      rw [hg] at hx'
      exact absurd hx' (by simp)

/-- C9: On a table whose schema declares an integer `id` column, `insert`
accepts a record omitting `id`, assigns the primary key by engine
autoincrement, returns the generated key, and that key identifies exactly
the inserted row in later queries. -/
theorem C9_insert_autoincrement (db : DB) (t : String) (tbl : Table) (r : Row)
    (htbl : getTable db t = some tbl)
    (hwf : tbl.wf = true)
    (hid : schemaHas tbl.schema "id" = true)
    (homit : rowGet r "id" = none) :
    insert db t r = .ok (tbl.nextId,
      setTable db t
        { tbl with rows := tbl.rows ++ [("id", Value.int tbl.nextId) :: r],
                   nextId := tbl.nextId + 1 }) ∧
    findOne
        (setTable db t
          { tbl with rows := tbl.rows ++ [("id", Value.int tbl.nextId) :: r],
                     nextId := tbl.nextId + 1 }) t
        [("id", FilterVal.one (Value.int tbl.nextId))] =
      .ok (some (("id", Value.int tbl.nextId) :: r)) ∧
    rowCount
        (setTable db t
          { tbl with rows := tbl.rows ++ [("id", Value.int tbl.nextId) :: r],
                     nextId := tbl.nextId + 1 }) t = tbl.rows.length + 1 := by
  refine ⟨?_, ?_, ?_⟩
  · unfold insert
    rw [htbl]
  · unfold findOne
    rw [getTable_setTable_self]
    have hcomp' : compileFilters tbl.schema (eqFilter [("id", Value.int tbl.nextId)]) =
        .ok (lookupPreds [("id", Value.int tbl.nextId)]) := by
      refine compileFilters_eqFilter (fun fv hfv => ?_)
      rw [List.mem_singleton] at hfv
      subst hfv
      exact ⟨rfl, hid⟩
    have hcomp : compileFilters tbl.schema [("id", FilterVal.one (Value.int tbl.nextId))] =
        .ok [⟨"id", Op.eq, FilterVal.one (Value.int tbl.nextId)⟩] := hcomp'
    simp only [hcomp]
    rw [List.find?_append, find?_wfRows_none hwf (le_refl tbl.nextId)]
    rw [List.find?_cons_of_pos _
          (by simp [matchesAll_singleton, evalPred, rowGet_cons, evalOp])]
    rfl
  · unfold rowCount
    rw [getTable_setTable_self]
    simp

/-- Witness for C9: inserting a record without `id` into the populated
users table assigns key 4, and finding by id 4 returns exactly that record
with the generated key. -/
theorem C9_insert_autoincrement_witness :
    insert usersDb "users" [("name", Value.str "emma"), ("age", Value.int 27)] =
      .ok (4, c9db) ∧
    findOne c9db "users" [("id", FilterVal.one (Value.int 4))] =
      .ok (some [("id", Value.int 4), ("name", Value.str "emma"), ("age", Value.int 27)]) ∧
    rowCount c9db "users" = 4 := by
  have h := C9_insert_autoincrement usersDb "users" usersTbl
    [("name", Value.str "emma"), ("age", Value.int 27)] rfl rfl rfl rfl
  exact ⟨h.1, h.2.1, h.2.2⟩

theorem bulkKeys_succ (n : Int) (len : Nat) :
    bulkKeys n (len + 1) = n :: bulkKeys (n + 1) len := by
  unfold bulkKeys
  rw [List.range_succ_eq_map, List.map_cons, List.map_map]
  simp only [Nat.cast_zero, add_zero]
  congr 1
  refine List.map_congr_left (fun a ha => ?_)
  simp only [Function.comp_apply, Nat.succ_eq_add_one]
  push_cast
  ring

theorem insertEach_spec (t : String) (rs : List Row) :
    ∀ (db : DB) (tbl : Table), getTable db t = some tbl →
    insertEach db t rs = .ok (bulkKeys tbl.nextId rs.length,
      setTable db t { tbl with rows := tbl.rows ++ tagRows tbl.nextId rs,
                               nextId := tbl.nextId + rs.length }) := by
  induction rs with
  | nil =>
    intro db tbl htbl
    unfold insertEach
    simp [bulkKeys, tagRows, setTable_self htbl]
  | cons r rs ih =>
    intro db tbl htbl
    have hget := getTable_setTable_self db t
      { tbl with rows := tbl.rows ++ [("id", Value.int tbl.nextId) :: r],
                 nextId := tbl.nextId + 1 }
    have hrec := ih (setTable db t
      { tbl with rows := tbl.rows ++ [("id", Value.int tbl.nextId) :: r],
                 nextId := tbl.nextId + 1 })
      { tbl with rows := tbl.rows ++ [("id", Value.int tbl.nextId) :: r],
                 nextId := tbl.nextId + 1 } hget
    simp only [insertEach, insert, htbl, hrec]
    rw [setTable_setTable]
    have hkeys : (tbl.nextId :: bulkKeys (tbl.nextId + 1) rs.length) =
        bulkKeys tbl.nextId (rs.length + 1) := (bulkKeys_succ _ _).symm
    have hrows : (tbl.rows ++ [("id", Value.int tbl.nextId) :: r]) ++
        tagRows (tbl.nextId + 1) rs = tbl.rows ++ tagRows tbl.nextId (r :: rs) := by
      rw [List.append_assoc]
      rfl
    have hnext : (tbl.nextId + 1) + (rs.length : Int) =
        tbl.nextId + ((rs.length + 1 : Nat) : Int) := by
      push_cast
      ring
    simp only [List.length_cons]
    rw [← hkeys, ← hrows, ← hnext]

theorem bulkInsert_eq_insertEach (db : DB) (t : String) (tbl : Table)
    (rs : List Row) (htbl : getTable db t = some tbl) :
    bulkInsert db t rs = insertEach db t rs := by
  rw [insertEach_spec t rs db tbl htbl]
  unfold bulkInsert
  rw [htbl]

theorem tagRows_find? (rs : List Row) :
    ∀ (n : Int) (i : Nat) (h : i < rs.length),
    (tagRows n rs).find? (matchesAll [⟨"id", .eq, .one (.int (n + i))⟩]) =
      some (("id", Value.int (n + i)) :: rs.get ⟨i, h⟩) := by
  induction rs with
  | nil =>
    intro n i h
    exact absurd h (by simp)
  | cons r rs ih =>
    intro n i h
    cases i with
    | zero =>
      rw [show tagRows n (r :: rs) = (("id", Value.int n) :: r) :: tagRows (n + 1) rs
            from rfl]
      rw [List.find?_cons_of_pos _
            (by simp [matchesAll_singleton, evalPred, rowGet_cons, evalOp])]
      simp
    | succ j =>
      rw [show tagRows n (r :: rs) = (("id", Value.int n) :: r) :: tagRows (n + 1) rs
            from rfl]
      rw [List.find?_cons_of_neg _
            (by
              simp [matchesAll_singleton, evalPred, rowGet_cons, evalOp]
              omega)]
      have hj : j < rs.length := by simpa using h
      have := ih (n + 1) j hj
      rw [show n + ((j + 1 : Nat) : Int) = (n + 1) + (j : Int) from by push_cast; ring]
      rw [this]
      simp

theorem bulkKeys_getElem? (n : Int) (len i : Nat) (h : i < len) :
    (bulkKeys n len)[i]? = some (n + i) := by
  unfold bulkKeys
  rw [List.getElem?_eq_getElem (by simpa using h)]
  rw [List.getElem_map, List.getElem_range]

/-- C3: For every list of records, `bulk_insert` is equivalent in resulting
database state and returned keys to inserting the records one at a time in
list order, and it returns the generated keys in input order: querying by
the i-th returned key yields exactly the i-th input record carrying that
key. -/
theorem C3_bulk_insert_equiv (db : DB) (t : String) (tbl : Table) (rs : List Row)
    (htbl : getTable db t = some tbl)
    (hwf : tbl.wf = true)
    (hid : schemaHas tbl.schema "id" = true) :
    bulkInsert db t rs = insertEach db t rs ∧
    bulkInsert db t rs = .ok (bulkKeys tbl.nextId rs.length,
      setTable db t { tbl with rows := tbl.rows ++ tagRows tbl.nextId rs,
                               nextId := tbl.nextId + rs.length }) ∧
    (bulkKeys tbl.nextId rs.length).length = rs.length ∧
    (∀ i (h : i < rs.length),
      (bulkKeys tbl.nextId rs.length)[i]? = some (tbl.nextId + i) ∧
      findOne
          (setTable db t { tbl with rows := tbl.rows ++ tagRows tbl.nextId rs,
                                    nextId := tbl.nextId + rs.length }) t
          [("id", FilterVal.one (Value.int (tbl.nextId + i)))] =
        .ok (some (("id", Value.int (tbl.nextId + i)) :: rs.get ⟨i, h⟩))) := by
  refine ⟨bulkInsert_eq_insertEach db t tbl rs htbl, ?_, by simp [bulkKeys], ?_⟩
  · rw [bulkInsert_eq_insertEach db t tbl rs htbl]
    exact insertEach_spec t rs db tbl htbl
  · intro i h
    refine ⟨bulkKeys_getElem? tbl.nextId rs.length i h, ?_⟩
    unfold findOne
    rw [getTable_setTable_self]
    have hcomp' : compileFilters tbl.schema (eqFilter [("id", Value.int (tbl.nextId + i))]) =
        .ok (lookupPreds [("id", Value.int (tbl.nextId + i))]) := by
      refine compileFilters_eqFilter (fun fv hfv => ?_)
      rw [List.mem_singleton] at hfv
      subst hfv
      exact ⟨rfl, hid⟩
    have hcomp : compileFilters tbl.schema
        [("id", FilterVal.one (Value.int (tbl.nextId + i)))] =
        .ok [⟨"id", Op.eq, FilterVal.one (Value.int (tbl.nextId + i))⟩] := hcomp'
    simp only [hcomp]
    rw [List.find?_append, find?_wfRows_none hwf (by omega)]
    rw [tagRows_find? rs tbl.nextId i h]
    rfl

/-- Witness for C3: bulk-inserting two extra users into the populated users
table equals inserting them one at a time, and the second generated key (5)
retrieves the second input record. -/
theorem C3_bulk_insert_equiv_witness :
    bulkInsert usersDb "users"
        [[("name", Value.str "emma"), ("age", Value.int 27)],
         [("name", Value.str "finn"), ("age", Value.int 33)]] =
      insertEach usersDb "users"
        [[("name", Value.str "emma"), ("age", Value.int 27)],
         [("name", Value.str "finn"), ("age", Value.int 33)]] ∧
    (bulkKeys usersTbl.nextId 2)[1]? = some 5 := by
  have h := C3_bulk_insert_equiv usersDb "users" usersTbl
    [[("name", Value.str "emma"), ("age", Value.int 27)],
     [("name", Value.str "finn"), ("age", Value.int 33)]] rfl rfl rfl
  exact ⟨h.1, ((h.2.2.2 1 (by decide)).1).trans rfl⟩

theorem findOne_eqLookup (db : DB) (t : String) (tbl : Table) (lookup : Row)
    (htbl : getTable db t = some tbl)
    (hkeys : ∀ fv ∈ lookup, splitKey fv.1 = (fv.1, none) ∧
       schemaHas tbl.schema fv.1 = true) :
    findOne db t (eqFilter lookup) = .ok (tbl.rows.find? (matchEq lookup)) := by
  unfold findOne
  simp only [htbl, compileFilters_eqFilter hkeys]
  rfl

theorem update_eqLookup (db : DB) (t : String) (tbl : Table) (lookup vals : Row)
    (htbl : getTable db t = some tbl)
    (hkeys : ∀ fv ∈ lookup, splitKey fv.1 = (fv.1, none) ∧
       schemaHas tbl.schema fv.1 = true) :
    update db t (eqFilter lookup) vals = .ok
      ((tbl.rows.filter (matchEq lookup)).length,
       setTable db t
         { tbl with
           rows := tbl.rows.map (fun r => if matchEq lookup r then applyUpdate r vals else r) }) := by
  unfold update
  simp only [htbl, compileFilters_eqFilter hkeys]
  rfl

theorem upsert_notfound (db : DB) (t : String) (tbl : Table) (lookup vals : Row)
    (htbl : getTable db t = some tbl)
    (hkeys : ∀ fv ∈ lookup, splitKey fv.1 = (fv.1, none) ∧
       schemaHas tbl.schema fv.1 = true)
    (hnil : tbl.rows.filter (matchEq lookup) = []) :
    upsert db t lookup vals = .ok
      (("id", Value.int tbl.nextId) :: applyUpdate lookup vals,
       setTable db t { tbl with
         rows := tbl.rows ++ [("id", Value.int tbl.nextId) :: applyUpdate lookup vals],
         nextId := tbl.nextId + 1 }) := by
  have hfind : tbl.rows.find? (matchEq lookup) = none := by
    rw [find?_eq_head?_filter, hnil]
    rfl
  unfold upsert
  simp only [findOne_eqLookup db t tbl lookup htbl hkeys, hfind, insert, htbl]

theorem upsert_found (db : DB) (t : String) (tbl : Table) (lookup vals x : Row)
    (htbl : getTable db t = some tbl)
    (hkeys : ∀ fv ∈ lookup, splitKey fv.1 = (fv.1, none) ∧
       schemaHas tbl.schema fv.1 = true)
    (hone : tbl.rows.filter (matchEq lookup) = [x]) :
    upsert db t lookup vals = .ok (applyUpdate x vals,
      setTable db t
        { tbl with
          rows := tbl.rows.map (fun r => if matchEq lookup r then applyUpdate r vals else r) }) := by
  have hfind : tbl.rows.find? (matchEq lookup) = some x := by
    rw [find?_eq_head?_filter, hone]
    rfl
  unfold upsert
  simp only [findOne_eqLookup db t tbl lookup htbl hkeys, hfind,
             update_eqLookup db t tbl lookup vals htbl hkeys]

theorem filter_update_rows {lookup vals : Row} {rows : List Row} {x : Row}
    (hdisj : ∀ fv ∈ vals, fv.1 ∉ lookup.map Prod.fst)
    (hone : rows.filter (matchEq lookup) = [x]) :
    (rows.map (fun r => if matchEq lookup r then applyUpdate r vals else r)).filter
        (matchEq lookup) = [applyUpdate x vals] := by
  have hpres : ∀ r ∈ rows,
      matchEq lookup (if matchEq lookup r then applyUpdate r vals else r) =
        matchEq lookup r := by
    intro r hr
    cases hm : matchEq lookup r
    · simpa using hm
    · simp [matchEq_applyUpdate hdisj r, hm]
  rw [filter_map_step rows _ (matchEq lookup) hpres, hone]
  have hx : matchEq lookup x = true := by
    have hmem : x ∈ rows.filter (matchEq lookup) := by
      rw [hone]
      exact List.mem_singleton_self x
    exact (List.mem_filter.mp hmem).2
  rw [List.map_cons, List.map_nil, if_pos hx]

theorem countConv_single (db : DB) (t : String) (tbl : Table) (lookup y : Row)
    (hg : getTable db t = some tbl)
    (hkeys : ∀ fv ∈ lookup, splitKey fv.1 = (fv.1, none) ∧
       schemaHas tbl.schema fv.1 = true)
    (hone : tbl.rows.filter (matchEq lookup) = [y]) :
    countConv db t (eqFilter lookup) = .ok 1 := by
  unfold countConv
  simp only [hg, compileFilters_eqFilter hkeys]
  have hone' : tbl.rows.filter (matchesAll (lookupPreds lookup)) = [y] := hone
  rw [hone']
  rfl

theorem upsert_final_props {lookup vals₂ y₁ : Row}
    (hdisj₂ : ∀ fv ∈ vals₂, fv.1 ∉ lookup.map Prod.fst)
    (hvnodup₂ : (vals₂.map Prod.fst).Nodup)
    (hy₁ : matchEq lookup y₁ = true) :
    (∀ fv ∈ vals₂, rowGet (applyUpdate y₁ vals₂) fv.1 = some fv.2) ∧
    (∀ fv ∈ lookup, rowGet (applyUpdate y₁ vals₂) fv.1 = some fv.2) := by
  constructor
  · intro fv hfv
    exact rowGet_applyUpdate_mem hvnodup₂ hfv y₁
  · intro fv hfv
    rw [rowGet_applyUpdate_notin
          (fun x hx hx1 => hdisj₂ x hx (hx1 ▸ List.mem_map_of_mem Prod.fst hfv))]
    exact (matchEq_iff lookup y₁).mp hy₁ fv hfv

/-- C4 (amended): provided the lookup filter keys ordinary schema data
columns (not the engine-owned `id` column), the update-value mappings do
not reassign any lookup field, and at most one row matches the lookup
beforehand, `upsert` first looks up by the filter, updates the found row
or inserts lookup-plus-values, and calling it twice with the same lookup
and differing update values leaves exactly one row matching the lookup
filter, carrying the second call's values. -/
theorem C4_upsert_twice_amended (db : DB) (t : String) (tbl : Table)
    (lookup vals₁ vals₂ : Row)
    (htbl : getTable db t = some tbl)
    (hkeys : ∀ fv ∈ lookup, splitKey fv.1 = (fv.1, none) ∧
       schemaHas tbl.schema fv.1 = true ∧ fv.1 ≠ "id")
    (hnodup : (lookup.map Prod.fst).Nodup)
    (hdisj₁ : ∀ fv ∈ vals₁, fv.1 ∉ lookup.map Prod.fst)
    (hdisj₂ : ∀ fv ∈ vals₂, fv.1 ∉ lookup.map Prod.fst)
    (hvnodup₂ : (vals₂.map Prod.fst).Nodup)
    (hinit : (tbl.rows.filter (matchEq lookup)).length ≤ 1) :
    ∃ r₁ db₁ rfin db₂ tbl₂,
      upsert db t lookup vals₁ = .ok (r₁, db₁) ∧
      upsert db₁ t lookup vals₂ = .ok (rfin, db₂) ∧
      getTable db₂ t = some tbl₂ ∧
      tbl₂.rows.filter (matchEq lookup) = [rfin] ∧
      countConv db₂ t (eqFilter lookup) = .ok 1 ∧
      (∀ fv ∈ vals₂, rowGet rfin fv.1 = some fv.2) ∧
      (∀ fv ∈ lookup, rowGet rfin fv.1 = some fv.2) := by
  have hkeys' : ∀ fv ∈ lookup, splitKey fv.1 = (fv.1, none) ∧
      schemaHas tbl.schema fv.1 = true :=
    fun fv h => ⟨(hkeys fv h).1, (hkeys fv h).2.1⟩
  cases hfil : tbl.rows.filter (matchEq lookup) with
  | nil =>
    have h1 := upsert_notfound db t tbl lookup vals₁ htbl hkeys' hfil
    have hy₁ : matchEq lookup
        (("id", Value.int tbl.nextId) :: applyUpdate lookup vals₁) = true := by
      rw [matchEq_iff]
      intro fv hfv
      rw [rowGet_cons,
          if_neg (by simpa using fun hh => (hkeys fv hfv).2.2 hh.symm)]
      rw [rowGet_applyUpdate_notin
            (fun x hx hx1 => hdisj₁ x hx (hx1 ▸ List.mem_map_of_mem Prod.fst hfv))]
      exact rowGet_mem_of_nodup hnodup hfv
    have hfil₁ : ({ tbl with
        rows := tbl.rows ++ [("id", Value.int tbl.nextId) :: applyUpdate lookup vals₁],
        nextId := tbl.nextId + 1 } : Table).rows.filter (matchEq lookup) =
        [("id", Value.int tbl.nextId) :: applyUpdate lookup vals₁] := by
      show (tbl.rows ++ [("id", Value.int tbl.nextId) :: applyUpdate lookup vals₁]).filter
          (matchEq lookup) = _
      rw [List.filter_append, hfil]
      simp [hy₁]
    have hg₁ := getTable_setTable_self db t
      { tbl with
        rows := tbl.rows ++ [("id", Value.int tbl.nextId) :: applyUpdate lookup vals₁],
        nextId := tbl.nextId + 1 }
    have h2 := upsert_found
      (setTable db t
        { tbl with
          rows := tbl.rows ++ [("id", Value.int tbl.nextId) :: applyUpdate lookup vals₁],
          nextId := tbl.nextId + 1 })
      t
      { tbl with
        rows := tbl.rows ++ [("id", Value.int tbl.nextId) :: applyUpdate lookup vals₁],
        nextId := tbl.nextId + 1 }
      lookup vals₂
      (("id", Value.int tbl.nextId) :: applyUpdate lookup vals₁)
      hg₁ hkeys' hfil₁
    have hfil₂ := filter_update_rows hdisj₂ hfil₁
    have hprops := upsert_final_props hdisj₂ hvnodup₂ hy₁
    exact ⟨_, _, _, _, _, h1, h2, getTable_setTable_self _ _ _, hfil₂,
      countConv_single _ t _ lookup _ (getTable_setTable_self _ _ _) hkeys' hfil₂,
      hprops.1, hprops.2⟩
  | cons x xs =>
    have hxs : xs = [] := by
      rw [hfil] at hinit
      simp only [List.length_cons] at hinit
      exact List.length_eq_zero.mp (by omega)
    subst hxs
    have hx : matchEq lookup x = true := by
      have hmem : x ∈ tbl.rows.filter (matchEq lookup) := by
        rw [hfil]
        exact List.mem_singleton_self x
      exact (List.mem_filter.mp hmem).2
    have h1 := upsert_found db t tbl lookup vals₁ x htbl hkeys' hfil
    have hfil₁ := filter_update_rows hdisj₁ hfil
    have hy₁ : matchEq lookup (applyUpdate x vals₁) = true := by
      rw [matchEq_applyUpdate hdisj₁ x, hx]
    have hg₁ := getTable_setTable_self db t
      { tbl with
        rows := tbl.rows.map (fun r => if matchEq lookup r then applyUpdate r vals₁ else r) }
    have h2 := upsert_found
      (setTable db t
        { tbl with
          rows := tbl.rows.map (fun r => if matchEq lookup r then applyUpdate r vals₁ else r) })
      t
      { tbl with
        rows := tbl.rows.map (fun r => if matchEq lookup r then applyUpdate r vals₁ else r) }
      lookup vals₂ (applyUpdate x vals₁) hg₁ hkeys' hfil₁
    have hfil₂ := filter_update_rows hdisj₂ hfil₁
    have hprops := upsert_final_props hdisj₂ hvnodup₂ hy₁
    exact ⟨_, _, _, _, _, h1, h2, getTable_setTable_self _ _ _, hfil₂,
      countConv_single _ t _ lookup _ (getTable_setTable_self _ _ _) hkeys' hfil₂,
      hprops.1, hprops.2⟩

/-- Counterexample to C4 as stated, at three concrete inputs: (A) if the
update values reassign the lookup field itself, two upserts under lookup
email="a" with values setting email="b" leave zero rows matching the
lookup (both calls succeed); (B) if two rows already match the lookup, two
upserts with differing age values leave two matching rows; (C) if the
lookup keys the engine-owned id column (id=5 on an empty table) with
update values touching neither the lookup field nor id, both upserts
insert a row under a fresh engine-assigned id, leaving zero rows matching
the lookup — in no case exactly one. -/
theorem C4_upsert_twice_counterexample :
    isOkB (upsert emailDbBase "users" c4lookup [("email", Value.str "b")]) = true ∧
    isOkB (upsert c4db1 "users" c4lookup [("email", Value.str "b")]) = true ∧
    countConv c4db2 "users" (eqFilter c4lookup) = .ok 0 ∧
    isOkB (upsert c4dbB "users" c4lookup [("age", Value.int 3)]) = true ∧
    isOkB (upsert c4dbB1 "users" c4lookup [("age", Value.int 4)]) = true ∧
    countConv c4dbB2 "users" (eqFilter c4lookup) = .ok 2 ∧
    isOkB (upsert emailDbBase "users" c4idLookup [("age", Value.int 9)]) = true ∧
    isOkB (upsert c4dbC1 "users" c4idLookup [("age", Value.int 10)]) = true ∧
    countConv c4dbC2 "users" (eqFilter c4idLookup) = .ok 0 :=
  ⟨rfl, rfl, rfl, rfl, rfl, rfl, rfl, rfl, rfl⟩

/-- Witness for the amended C4: upserting age 1 then age 2 under lookup
email="a" into an empty table leaves exactly one matching row. -/
theorem C4_upsert_twice_amended_witness :
    countConv c4gdb2 "users" (eqFilter c4lookup) = .ok 1 := by
  obtain ⟨r₁, db₁, rfin, db₂, tbl₂, h1, h2, hg, hfil, hcount, hv, hl⟩ :=
    C4_upsert_twice_amended emailDbBase "users" ⟨emailSchema, [], 1⟩ c4lookup
      [("age", Value.int 1)] [("age", Value.int 2)] rfl
      (by decide) (by decide) (by decide) (by decide) (by decide) (by decide)
  have hd1 : c4gdb1 = db₁ := by
    unfold c4gdb1
    rw [h1]
  have hd2 : c4gdb2 = db₂ := by
    unfold c4gdb2
    rw [hd1, h2]
  rw [hd2]
  exact hcount

/-- Witness for C7: a plan whose predicate matches no user yields the
sentinel `none` from `first()`. -/
theorem C7_first_limit_one_witness :
    execFirst usersDb
      { table := "users", preds := [⟨"age", .gt, .one (.int 100)⟩],
        sortKeys := [], limit? := none, offset? := none } = .ok none := by
  have h := C7_first_limit_one usersDb
    { table := "users", preds := [⟨"age", .gt, .one (.int 100)⟩],
      sortKeys := [], limit? := none, offset? := none } usersTbl rfl
  exact h.2.2.2 rfl

end Akron
